import Mathlib

/-!
Shallow embedding of src/seller.py (marketplace price/stock synchronizer).

Conventions of the embedding:
* A feed row (a record of the vendor spreadsheet) carries the three columns
  the code reads, already coerced to strings the way the code does with
  str(...): the vendor code, the quantity and the price.
* Python exceptions are modelled with Option / Except: a function that can
  raise returns none / .error instead of a value.
* In-place mutation of the offer_ids list by create_stocks is modelled by
  returning the final value of that list alongside the ordinary result.
* HTTP endpoints are modelled as oracles passed in as functions.
-/

namespace Seller

/-- A feed row of the vendor spreadsheet: kod is str(watch.get("Код")),
kolichestvo is str(watch.get("Количество")), tsena is watch.get("Цена"). -/
structure Row where
  kod : String
  kolichestvo : String
  tsena : String
deriving DecidableEq

/-- A stock-update record as built by create_stocks. -/
structure StockRec where
  offer_id : String
  stock : Int
deriving DecidableEq

/-- A price-update record as built by create_prices. -/
structure PriceRec where
  auto_action_enabled : String
  currency_code : String
  offer_id : String
  old_price : String
  price : String
deriving DecidableEq

/-- Python str.split with a one-character separator: cuts the character list
at every occurrence of the separator, keeping empty pieces (so the result is
always nonempty). -/
def pySplit (sep : Char) : List Char → List (List Char)
  | [] => [[]]
  | c :: rest =>
    match pySplit sep rest with
    | [] => [[]]
    | g :: gs => if c = sep then [] :: g :: gs else (c :: g) :: gs

/-- re.sub("[^0-9]", "", s): delete every character outside ASCII 0-9. -/
def reSubNonDigit (cs : List Char) : List Char :=
  cs.filter Char.isDigit

/-- price_conversion from seller.py:
re.sub("[^0-9]", "", price.split(".")[0]). -/
def price_conversion (price : String) : String :=
  String.mk (reSubNonDigit ((pySplit '.' price.data).headD []))

/-- Digit-run tail of Python int(): after the first digit, digits may follow
directly or after a single underscore that must itself be followed by a
digit. -/
def pyDigitsGo (acc : Nat) : List Char → Option Nat
  | [] => some acc
  | ['_'] => none
  | '_' :: c :: rest =>
    if c.isDigit then pyDigitsGo (10 * acc + (c.toNat - 48)) rest else none
  | c :: rest =>
    if c.isDigit then pyDigitsGo (10 * acc + (c.toNat - 48)) rest else none

/-- Surrounding-whitespace strip on the character list, as int() does
before parsing. -/
def pyStripWs (cs : List Char) : List Char :=
  ((cs.dropWhile Char.isWhitespace).reverse.dropWhile Char.isWhitespace).reverse

/-- Python int() applied to a string: strip surrounding whitespace, optional
sign, then a nonempty digit run; none models a raised ValueError. -/
def pyInt? (s : String) : Option Int :=
  match pyStripWs s.data with
  | '-' :: c :: rest =>
    if c.isDigit then (pyDigitsGo (c.toNat - 48) rest).map (fun n => -(n : Int))
    else none
  | '+' :: c :: rest =>
    if c.isDigit then (pyDigitsGo (c.toNat - 48) rest).map (fun n => (n : Int))
    else none
  | c :: rest =>
    if c.isDigit then (pyDigitsGo (c.toNat - 48) rest).map (fun n => (n : Int))
    else none
  | [] => none

/-- The quantity branch of create_stocks: ">10" gives 100, "1" gives 0,
anything else is passed to int() (which may raise). -/
def stockOf (count : String) : Option Int :=
  if count = ">10" then some 100
  else if count = "1" then some 0
  else pyInt? count

/-- The first loop of create_stocks: walk the feed rows; a row whose code is
in the current offer_ids appends a record and removes that code from
offer_ids (list.remove drops the first occurrence). Returns the appended
records and the final offer_ids; none models an int() ValueError. -/
def stocksLoop : List Row → List String → Option (List StockRec × List String)
  | [], ids => some ([], ids)
  | w :: ws, ids =>
    if w.kod ∈ ids then
      match stockOf w.kolichestvo with
      | none => none
      | some st =>
        match stocksLoop ws (ids.erase w.kod) with
        | none => none
        | some (recs, rem) => some (⟨w.kod, st⟩ :: recs, rem)
    else stocksLoop ws ids

/-- create_stocks from seller.py. The second loop zero-fills every offer_id
left in the (mutated) list. The returned pair is (the stocks list, the
final value of the offer_ids list of the caller). -/
def create_stocks (watch_remnants : List Row) (offer_ids : List String) :
    Option (List StockRec × List String) :=
  match stocksLoop watch_remnants offer_ids with
  | none => none
  | some (recs, rem) => some (recs ++ rem.map (fun id => ⟨id, 0⟩), rem)

/-- create_prices from seller.py: one record per feed row whose code is in
offer_ids, in feed order; offer_ids is not modified here. -/
def create_prices : List Row → List String → List PriceRec
  | [], _ => []
  | w :: ws, ids =>
    if w.kod ∈ ids then
      { auto_action_enabled := "UNKNOWN", currency_code := "RUB",
        offer_id := w.kod, old_price := "0",
        price := price_conversion w.tsena } :: create_prices ws ids
    else create_prices ws ids

/-- True when the code of no feed row equals the given id. -/
def noMatch (rows : List Row) (id : String) : Bool :=
  rows.all (fun w => !(w.kod == id))

/-- Modelled from the spec: the body of divide is absent from
src/seller.py (only its def line, docstring and callers are present).
The spec: splits a list into consecutive chunks of a fixed maximum size n
and the chunks are issued in order. Outside the domain of the spec (n = 0) we
return []. -/
def divide : List α → Nat → List (List α)
  | [], _ => []
  | _ :: _, 0 => []
  | x :: xs, n + 1 =>
    (x :: xs).take (n + 1) :: divide ((x :: xs).drop (n + 1)) (n + 1)
termination_by l => l.length
decreasing_by
  simp only [List.length_drop, List.length_cons]
  omega

/-- The list of chunk lengths that dividing a list of length m into chunks
of size n produces. -/
def chunkSizes (m n : Nat) : List Nat :=
  if h : m = 0 ∨ n = 0 then []
  else min n m :: chunkSizes (m - n) n
termination_by m
decreasing_by
  push_neg at h
  exact Nat.sub_lt (Nat.pos_of_ne_zero h.1) (Nat.pos_of_ne_zero h.2)

/-- The transform pipeline of main (lines 315-324): one catalog fetch, the
same offer_ids list passed to create_stocks (which mutates it) and then to
create_prices. Returns (stock updates, price updates). -/
def mainTransforms (watch_remnants : List Row) (offer_ids : List String) :
    Option (List StockRec × List PriceRec) :=
  match create_stocks watch_remnants offer_ids with
  | none => none
  | some (stocks, remaining) =>
    some (stocks, create_prices watch_remnants remaining)

/-- One response of the product-list endpoint; items holds the offer_ids of
the returned products, total is the reported catalog total, last_id the
cursor. -/
structure Page where
  items : List String
  total : Nat
  last_id : String

/-- Everything accumulated by the get_offer_ids loop from the pages before
iteration k (the k-th call is resp k). -/
def accumUpto (resp : Nat → Page) : Nat → List String
  | 0 => []
  | k + 1 => accumUpto resp k ++ (resp k).items

/-- The break condition of the get_offer_ids loop at iteration k: the total
reported by the k-th response equals the item count accumulated through it. -/
def stopsAt (resp : Nat → Page) (k : Nat) : Prop :=
  (resp k).total = (accumUpto resp (k + 1)).length

/-- The while-True loop of get_offer_ids, fuel-indexed: each iteration
extends the accumulator with the items of the page and breaks exactly when the
reported total equals the accumulated length; none means the fuel ran out
without the break having fired. -/
def fetchLoop (resp : Nat → Page) : List String → Nat → Nat → Option (List String)
  | _, _, 0 => none
  | acc, i, fuel + 1 =>
    let acc2 := acc ++ (resp i).items
    if (resp i).total = acc2.length then some acc2
    else fetchLoop resp acc2 (i + 1) fuel

/-- get_offer_ids against a response oracle, observed through a fuel bound:
some l when the loop breaks within fuel iterations. -/
def get_offer_ids_run (resp : Nat → Page) (fuel : Nat) : Option (List String) :=
  fetchLoop resp [] 0 fuel

/-- download_stock effect model: extractall always deposits ostatki.xls in
the working directory; read_excel is an oracle that either yields the rows
or raises; os.remove runs only after a successful parse, so the Bool result
(is the extracted file still present?) is false exactly on success. -/
def download_stock (parse : Except String (List Row)) (fsHadFile : Bool) :
    Except String (List Row) × Bool :=
  let afterExtract := true
  match parse with
  | Except.ok rows => (Except.ok rows, false)
  | Except.error e => (Except.error e, afterExtract)

/-! Helper lemmas about the embedded operations. -/

lemma pySplit_ne_nil (sep : Char) (cs : List Char) : pySplit sep cs ≠ [] := by
  cases cs with
  | nil => simp [pySplit]
  | cons c rest =>
    cases hrec : pySplit sep rest with
    | nil => simp [pySplit, hrec]
    | cons g gs =>
      by_cases hc : c = sep <;> simp [pySplit, hrec, hc]

lemma pySplit_headD (sep : Char) (cs : List Char) :
    (pySplit sep cs).headD [] = cs.takeWhile (fun c => c != sep) := by
  induction cs with
  | nil => simp [pySplit]
  | cons c rest ih =>
    cases hrec : pySplit sep rest with
    | nil => exact absurd hrec (pySplit_ne_nil sep rest)
    | cons g gs =>
      rw [hrec] at ih
      simp only [List.headD_cons] at ih
      by_cases hc : c = sep
      · simp [pySplit, hrec, hc, List.takeWhile_cons]
      · simp [pySplit, hrec, hc, List.takeWhile_cons, ih]

/-- price_conversion computes: truncate at the first dot, keep only digits. -/
lemma price_conversion_eq (s : String) :
    price_conversion s =
      String.mk ((s.data.takeWhile (fun c => c != '.')).filter Char.isDigit) := by
  unfold price_conversion reSubNonDigit
  rw [pySplit_headD]

/-- C6: price_conversion, for every input string, returns the input truncated
at the first dot with all non-digit characters then removed; in particular
the three spec examples convert to "5990", "1" and "1234". -/
theorem price_conversion_truncate_then_strip (s : String) :
    price_conversion s =
      String.mk ((s.data.takeWhile (fun c => c != '.')).filter Char.isDigit) ∧
    price_conversion "5\x27990.00 руб." = "5990" ∧
    price_conversion "1.250,50 USD" = "1" ∧
    price_conversion "€ 1234.56" = "1234" :=
  ⟨price_conversion_eq s, by decide, by decide, by decide⟩

/-- C10: price_conversion is total: its embedding is a plain function on
strings (str.split and re.sub raise on no string input), its output is all
digits, and a string with no digit before the first dot yields "". -/
theorem price_conversion_total (s : String) :
    (price_conversion s).data.all Char.isDigit = true ∧
    ((s.data.takeWhile (fun c => c != '.')).all (fun c => !c.isDigit) = true →
      price_conversion s = "") := by
  constructor
  · rw [price_conversion_eq]
    rw [List.all_eq_true]
    intro c hc
    exact (List.mem_filter.mp hc).2
  · intro h
    rw [price_conversion_eq]
    have hnil : (s.data.takeWhile (fun c => c != '.')).filter Char.isDigit = [] := by
      rw [List.filter_eq_nil_iff]
      intro a ha
      have := (List.all_eq_true.mp h) a ha
      simpa using this
    rw [hnil]

/-- Witness for C10 at the digit-free input "руб.". -/
theorem price_conversion_total_witness :
    (price_conversion "руб.").data.all Char.isDigit = true ∧
    price_conversion "руб." = "" :=
  ⟨(price_conversion_total "руб.").1,
   (price_conversion_total "руб.").2 (by decide)⟩

/-- C3: create_prices emits exactly one record per feed row whose code is in
the offer_id list (in feed order, no record for other rows), with the fixed
currency/old-price/auto-action fields and the converted price. -/
theorem create_prices_spec (rows : List Row) (ids : List String) :
    create_prices rows ids =
      rows.filterMap (fun w =>
        if w.kod ∈ ids then
          some { auto_action_enabled := "UNKNOWN", currency_code := "RUB",
                 offer_id := w.kod, old_price := "0",
                 price := price_conversion w.tsena }
        else none) ∧
    (create_prices rows ids).length =
      (rows.filter (fun w => decide (w.kod ∈ ids))).length ∧
    ∀ p ∈ create_prices rows ids,
      p.currency_code = "RUB" ∧ p.old_price = "0" ∧
      p.auto_action_enabled = "UNKNOWN" := by
  refine ⟨?_, ?_, ?_⟩
  · induction rows with
    | nil => rfl
    | cons w ws ih =>
      by_cases h : w.kod ∈ ids <;> simp [create_prices, h, ih]
  · induction rows with
    | nil => rfl
    | cons w ws ih =>
      by_cases h : w.kod ∈ ids <;> simp [create_prices, h, ih]
  · induction rows with
    | nil => intro p hp; simp [create_prices] at hp
    | cons w ws ih =>
      intro p hp
      by_cases h : w.kod ∈ ids
      · rw [create_prices, if_pos h] at hp
        rcases List.mem_cons.mp hp with hp | hp
        · subst hp; exact ⟨rfl, rfl, rfl⟩
        · exact ih p hp
      · rw [create_prices, if_neg h] at hp
        exact ih p hp

/-- Witness for C3 on a one-row feed matching a one-id catalog. -/
theorem create_prices_spec_witness :
    (PriceRec.mk "UNKNOWN" "RUB" "a" "0" "10").currency_code = "RUB" ∧
    create_prices [Row.mk "a" "5" "10.5"] ["a"] =
      [PriceRec.mk "UNKNOWN" "RUB" "a" "0" "10"] := by
  constructor
  · exact ((create_prices_spec [Row.mk "a" "5" "10.5"] ["a"]).2.2
      (PriceRec.mk "UNKNOWN" "RUB" "a" "0" "10") (by decide)).1
  · decide

/-- C8: download_stock removes the extracted spreadsheet exactly when the
parse succeeds; a parse error propagates with the extracted file still
present in the working directory. -/
theorem download_stock_cleanup (parse : Except String (List Row)) (fs : Bool) :
    (∀ rows, parse = Except.ok rows →
      download_stock parse fs = (Except.ok rows, false)) ∧
    (∀ e, parse = Except.error e →
      download_stock parse fs = (Except.error e, true)) := by
  constructor
  · intro rows h; subst h; rfl
  · intro e h; subst h; rfl

/-- Witness for C8 at a successful and a failing parse. -/
theorem download_stock_cleanup_witness :
    download_stock (Except.ok []) false = (Except.ok [], false) ∧
    download_stock (Except.error "parse failure") false =
      (Except.error "parse failure", true) :=
  ⟨(download_stock_cleanup (Except.ok []) false).1 [] rfl,
   (download_stock_cleanup (Except.error "parse failure") false).2
     "parse failure" rfl⟩

/-! Properties of the (spec-modelled) divide. -/

lemma divide_cons_succ (x : α) (xs : List α) (n : Nat) :
    divide (x :: xs) (n + 1) =
      (x :: xs).take (n + 1) :: divide ((x :: xs).drop (n + 1)) (n + 1) := by
  rw [divide]

lemma divide_eq_nil_iff (l : List α) (n : Nat) (hn : n ≠ 0) :
    divide l n = [] ↔ l = [] := by
  cases l with
  | nil => simp [divide]
  | cons x xs =>
    cases n with
    | zero => exact absurd rfl hn
    | succ m => rw [divide_cons_succ]; simp

lemma divide_flatten (l : List α) (n : Nat) :
    n ≠ 0 → (divide l n).flatten = l := by
  induction l, n using divide.induct with
  | case1 n => intro _; simp [divide]
  | case2 x xs => intro h; exact absurd rfl h
  | case3 x xs n ih =>
    intro _
    rw [divide_cons_succ, List.flatten_cons, ih (Nat.succ_ne_zero n)]
    exact List.take_append_drop (n + 1) (x :: xs)

lemma divide_mem_length (l : List α) (n : Nat) :
    n ≠ 0 → ∀ c ∈ divide l n, 0 < c.length ∧ c.length ≤ n := by
  induction l, n using divide.induct with
  | case1 n => intro _ c hc; simp [divide] at hc
  | case2 x xs => intro h; exact absurd rfl h
  | case3 x xs n ih =>
    intro _ c hc
    rw [divide_cons_succ] at hc
    rcases List.mem_cons.mp hc with hc | hc
    · subst hc
      constructor
      · simp [List.length_take]
      · simp [List.length_take]
    · exact ih (Nat.succ_ne_zero n) c hc

lemma divide_dropLast_length (l : List α) (n : Nat) :
    n ≠ 0 → ∀ c ∈ (divide l n).dropLast, c.length = n := by
  induction l, n using divide.induct with
  | case1 n => intro _ c hc; simp [divide] at hc
  | case2 x xs => intro h; exact absurd rfl h
  | case3 x xs n ih =>
    intro _ c hc
    rw [divide_cons_succ] at hc
    cases hrest : divide ((x :: xs).drop (n + 1)) (n + 1) with
    | nil => rw [hrest] at hc; simp at hc
    | cons d ds =>
      rw [hrest, List.dropLast_cons_of_ne_nil (by simp)] at hc
      rcases List.mem_cons.mp hc with hc | hc
      · subst hc
        have hdrop : (x :: xs).drop (n + 1) ≠ [] := by
          intro hd
          rw [hd] at hrest
          simp [divide] at hrest
        have hlen : n + 1 < (x :: xs).length := by
          by_contra hle
          exact hdrop (List.drop_eq_nil_iff.mpr (by omega))
        simp only [List.length_take, List.length_cons] at hlen ⊢
        omega
      · rw [← hrest] at hc
        exact ih (Nat.succ_ne_zero n) c hc

lemma divide_map_length (l : List α) (n : Nat) :
    (divide l n).map List.length = chunkSizes l.length n := by
  induction l, n using divide.induct with
  | case1 n => simp [divide, chunkSizes]
  | case2 x xs => simp [divide, chunkSizes]
  | case3 x xs n ih =>
    rw [divide_cons_succ, List.map_cons, ih]
    conv_rhs => rw [chunkSizes]
    rw [dif_neg (by simp)]
    simp only [List.length_take, List.length_drop, List.length_cons,
      List.cons.injEq]

lemma chunkSizes_step (m n : Nat) (hm : m ≠ 0) (hn : n ≠ 0) :
    chunkSizes m n = min n m :: chunkSizes (m - n) n := by
  rw [chunkSizes, dif_neg (by push_neg; exact ⟨hm, hn⟩)]

lemma chunkSizes_zero (n : Nat) : chunkSizes 0 n = [] := by
  rw [chunkSizes, dif_pos (Or.inl rfl)]

set_option maxRecDepth 2000 in
lemma chunkSizes_2500_1000 : chunkSizes 2500 1000 = [1000, 1000, 500] := by
  rw [chunkSizes_step 2500 1000 (by norm_num) (by norm_num),
      chunkSizes_step (2500 - 1000) 1000 (by norm_num) (by norm_num),
      chunkSizes_step (2500 - 1000 - 1000) 1000 (by norm_num) (by norm_num)]
  norm_num [chunkSizes_zero, Nat.min_def]

/-- C1: divide (modelled from the spec; its body is absent from seller.py)
splits any list at positive chunk size n into the consecutive sublists of
the input in order, each nonempty and of length at most n, every chunk but
possibly the last of length exactly n; a list of 2500 records at chunk size
1000 gives exactly the chunk sizes 1000, 1000, 500, and concatenation
returns the input. -/
theorem divide_chunks_spec (l : List α) (n : Nat) (hn : 0 < n) :
    (divide l n).flatten = l ∧
    (∀ c ∈ (divide l n).dropLast, c.length = n) ∧
    (∀ c ∈ divide l n, 0 < c.length ∧ c.length ≤ n) ∧
    (l.length = 2500 → n = 1000 →
      (divide l n).map List.length = [1000, 1000, 500]) := by
  refine ⟨divide_flatten l n (by omega), divide_dropLast_length l n (by omega),
    divide_mem_length l n (by omega), ?_⟩
  intro hl hn1000
  rw [divide_map_length, hl, hn1000]
  exact chunkSizes_2500_1000

/-- Witness for C1 on a concrete list of 2500 records at chunk size 1000. -/
theorem divide_chunks_spec_witness :
    (divide (List.replicate 2500 (0 : Nat)) 1000).map List.length =
      [1000, 1000, 500] ∧
    (divide (List.replicate 2500 (0 : Nat)) 1000).flatten =
      List.replicate 2500 0 :=
  ⟨(divide_chunks_spec (List.replicate 2500 (0 : Nat)) 1000
      (by norm_num)).2.2.2 (List.length_replicate 2500 (0 : Nat)) rfl,
   (divide_chunks_spec (List.replicate 2500 (0 : Nat)) 1000 (by norm_num)).1⟩

/-! The create_stocks loop: how it consumes offer_ids and what it emits. -/

lemma noMatch_nil (id : String) : noMatch [] id = true := rfl

lemma noMatch_cons (w : Row) (ws : List Row) (id : String) :
    noMatch (w :: ws) id = (!(w.kod == id) && noMatch ws id) := by
  simp [noMatch, List.all_cons]

lemma noMatch_eq_true_iff (rows : List Row) (id : String) :
    noMatch rows id = true ↔ ∀ w ∈ rows, w.kod ≠ id := by
  simp [noMatch, List.all_eq_true]

lemma bne_eq_not_beq_swap (a b : String) : (a != b) = !(b == a) := by
  by_cases h : a = b
  · subst h; simp
  · have h1 : (a == b) = false := beq_eq_false_iff_ne.mpr h
    have h2 : (b == a) = false := beq_eq_false_iff_ne.mpr (Ne.symm h)
    simp [bne, h1, h2]

/-- What one run of the first loop of create_stocks produces, for a
duplicate-free offer_ids list: the surviving ids are exactly the unmatched
ones in order, every emitted record carries a catalog id, and for each
catalog id the emitted records are empty (no feed match) or the singleton
built from the first matching feed row. -/
lemma stocksLoop_spec (rows : List Row) :
    ∀ ids : List String, ids.Nodup →
      ∀ recs rem, stocksLoop rows ids = some (recs, rem) →
        rem = ids.filter (noMatch rows) ∧
        (∀ r ∈ recs, r.offer_id ∈ ids) ∧
        (∀ id ∈ ids,
          (List.find? (fun w => w.kod == id) rows = none →
            recs.filter (fun r => r.offer_id == id) = []) ∧
          (∀ w, List.find? (fun w2 => w2.kod == id) rows = some w →
            ∃ v, stockOf w.kolichestvo = some v ∧
              recs.filter (fun r => r.offer_id == id) = [⟨id, v⟩])) := by
  induction rows with
  | nil =>
    intro ids hN recs rem h
    rw [stocksLoop] at h
    injection h with h
    injection h with h1 h2
    subst h1; subst h2
    refine ⟨?_, by simp, ?_⟩
    · rw [List.filter_congr (fun id _ => noMatch_nil id), List.filter_true]
    · intro id _
      exact ⟨fun _ => rfl, fun w hw => by simp at hw⟩
  | cons w ws ih =>
    intro ids hN recs rem h
    rw [stocksLoop] at h
    by_cases hmem : w.kod ∈ ids
    · rw [if_pos hmem] at h
      cases hso : stockOf w.kolichestvo with
      | none => rw [hso] at h; exact absurd h (by simp)
      | some st =>
        rw [hso] at h
        cases hrec : stocksLoop ws (ids.erase w.kod) with
        | none => rw [hrec] at h; exact absurd h (by simp)
        | some pr =>
          obtain ⟨recs', rem'⟩ := pr
          rw [hrec] at h
          injection h with h
          injection h with h1 h2
          subst h1; subst h2
          obtain ⟨hrem, hsub, hfind⟩ :=
            ih (ids.erase w.kod) (hN.erase w.kod) recs' rem' hrec
          refine ⟨?_, ?_, ?_⟩
          · rw [hrem, hN.erase_eq_filter w.kod, List.filter_filter]
            exact List.filter_congr (fun a _ => by
              rw [noMatch_cons, Bool.and_comm]
              congr 1
              exact bne_eq_not_beq_swap a w.kod)
          · intro r hr
            rcases List.mem_cons.mp hr with hr | hr
            · subst hr; exact hmem
            · exact List.mem_of_mem_erase (hsub r hr)
          · intro id hid
            by_cases hide : id = w.kod
            · subst hide
              constructor
              · intro hnone
                rw [List.find?_cons_of_pos _ (by simp)] at hnone
                exact absurd hnone (by simp)
              · intro w' hw'
                rw [List.find?_cons_of_pos _ (by simp)] at hw'
                injection hw' with hw'
                subst hw'
                refine ⟨st, hso, ?_⟩
                rw [List.filter_cons_of_pos (by simp)]
                congr 1
                rw [List.filter_eq_nil_iff]
                intro r hr
                have hrid : r.offer_id ∈ ids.erase w.kod := hsub r hr
                intro hreq
                rw [beq_iff_eq] at hreq
                rw [hreq] at hrid
                exact ((hN.mem_erase_iff).mp hrid).1 rfl
            · have hmem' : id ∈ ids.erase w.kod :=
                (List.mem_erase_of_ne hide).mpr hid
              have hfw : (w.kod == id) = false :=
                beq_eq_false_iff_ne.mpr (fun hk => hide hk.symm)
              have hstep :
                  List.filter (fun r => r.offer_id == id)
                      ((⟨w.kod, st⟩ : StockRec) :: recs') =
                    recs'.filter (fun r => r.offer_id == id) :=
                List.filter_cons_of_neg (by simp [hfw])
              constructor
              · intro hnone
                rw [List.find?_cons_of_neg _ (by simp [hfw])] at hnone
                rw [hstep]
                exact (hfind id hmem').1 hnone
              · intro w' hw'
                rw [List.find?_cons_of_neg _ (by simp [hfw])] at hw'
                rw [hstep]
                exact (hfind id hmem').2 w' hw'
    · rw [if_neg hmem] at h
      obtain ⟨hrem, hsub, hfind⟩ := ih ids hN recs rem h
      have hnotid : ∀ id ∈ ids, (w.kod == id) = false := by
        intro id hid
        simp
        exact fun hk => hmem (hk ▸ hid)
      refine ⟨?_, hsub, ?_⟩
      · rw [hrem]
        exact List.filter_congr (fun a ha => by
          rw [noMatch_cons, hnotid a ha]
          simp)
      · intro id hid
        constructor
        · intro hnone
          rw [List.find?_cons_of_neg _ (by simp [hnotid id hid])] at hnone
          exact (hfind id hid).1 hnone
        · intro w' hw'
          rw [List.find?_cons_of_neg _ (by simp [hnotid id hid])] at hw'
          exact (hfind id hid).2 w' hw'

lemma create_stocks_destruct (rows : List Row) (ids : List String)
    (stocks : List StockRec) (rem : List String)
    (h : create_stocks rows ids = some (stocks, rem)) :
    ∃ recs, stocksLoop rows ids = some (recs, rem) ∧
      stocks = recs ++ rem.map (fun id => (⟨id, 0⟩ : StockRec)) := by
  unfold create_stocks at h
  cases hl : stocksLoop rows ids with
  | none => rw [hl] at h; exact absurd h (by simp)
  | some pr =>
    obtain ⟨recs, rem'⟩ := pr
    rw [hl] at h
    injection h with h
    injection h with h1 h2
    subst h2
    exact ⟨recs, rfl, h1.symm⟩

lemma zeroFill_filter (id : String) :
    ∀ rem : List String, rem.Nodup →
      (rem.map (fun j => (⟨j, 0⟩ : StockRec))).filter
          (fun r => r.offer_id == id) =
        if id ∈ rem then [⟨id, 0⟩] else [] := by
  intro rem
  induction rem with
  | nil => intro _; simp
  | cons a as ih =>
    intro hN
    obtain ⟨hnot, hN2⟩ := List.nodup_cons.mp hN
    by_cases hia : a = id
    · subst hia
      rw [List.map_cons, List.filter_cons_of_pos (by simp), ih hN2,
        if_neg hnot, if_pos (List.mem_cons_self a as)]
    · have hfa : ((⟨a, 0⟩ : StockRec).offer_id == id) = false :=
        beq_eq_false_iff_ne.mpr hia
      rw [List.map_cons, List.filter_cons_of_neg (by simp [hfa]), ih hN2]
      by_cases hin : id ∈ as
      · rw [if_pos hin, if_pos (List.mem_cons_of_mem a hin)]
      · rw [if_neg hin, if_neg ?_]
        intro hmem2
        rcases List.mem_cons.mp hmem2 with hcase | hcase
        · exact hia hcase.symm
        · exact hin hcase

/-- The stocks list of create_stocks, restricted to one catalog id: the
zero-fill record when no feed row matched, else the singleton from the
first matching feed row. -/
lemma create_stocks_filter_spec (rows : List Row) (ids : List String)
    (stocks : List StockRec) (rem : List String) (hN : ids.Nodup)
    (h : create_stocks rows ids = some (stocks, rem)) :
    ∀ id ∈ ids,
      (List.find? (fun w => w.kod == id) rows = none →
        stocks.filter (fun r => r.offer_id == id) = [⟨id, 0⟩]) ∧
      (∀ w, List.find? (fun w2 => w2.kod == id) rows = some w →
        ∃ v, stockOf w.kolichestvo = some v ∧
          stocks.filter (fun r => r.offer_id == id) = [⟨id, v⟩]) := by
  obtain ⟨recs, hl, hstocks⟩ := create_stocks_destruct rows ids stocks rem h
  obtain ⟨hrem, hsub, hfind⟩ := stocksLoop_spec rows ids hN recs rem hl
  have hremN : rem.Nodup := hrem ▸ hN.filter (noMatch rows)
  intro id hid
  subst hstocks
  rw [List.filter_append, zeroFill_filter id rem hremN]
  constructor
  · intro hnone
    have hnm : noMatch rows id = true := by
      rw [noMatch_eq_true_iff]
      intro w hw
      have := List.find?_eq_none.mp hnone w hw
      simpa using this
    have hinrem : id ∈ rem := by
      rw [hrem]; exact List.mem_filter.mpr ⟨hid, hnm⟩
    rw [(hfind id hid).1 hnone, if_pos hinrem]
    rfl
  · intro w hw
    obtain ⟨v, hv, hfilter⟩ := (hfind id hid).2 w hw
    have hwmem : w ∈ rows := List.mem_of_find?_eq_some hw
    have hwkod : w.kod = id := by
      have := List.find?_some hw; simpa using this
    have hnotrem : id ∉ rem := by
      rw [hrem]
      intro hmem2
      have hnm := (List.mem_filter.mp hmem2).2
      rw [noMatch_eq_true_iff] at hnm
      exact hnm w hwmem hwkod
    rw [hfilter, if_neg hnotrem]
    exact ⟨v, hv, by simp⟩

/-- C5: for a duplicate-free catalog, every catalog offer_id occurs exactly
once in the stock-update list create_stocks produces: with the quantity of
the first matching feed row, or with stock 0 when no feed row matches. -/
theorem create_stocks_exactly_once (rows : List Row) (ids : List String)
    (stocks : List StockRec) (rem : List String) (hN : ids.Nodup)
    (h : create_stocks rows ids = some (stocks, rem)) :
    ∀ id ∈ ids,
      (stocks.filter (fun r => r.offer_id == id)).length = 1 ∧
      (List.find? (fun w => w.kod == id) rows = none →
        stocks.filter (fun r => r.offer_id == id) = [⟨id, 0⟩]) ∧
      (∀ w, List.find? (fun w2 => w2.kod == id) rows = some w →
        ∃ v, stockOf w.kolichestvo = some v ∧
          stocks.filter (fun r => r.offer_id == id) = [⟨id, v⟩]) := by
  intro id hid
  obtain ⟨h1, h2⟩ := create_stocks_filter_spec rows ids stocks rem hN h id hid
  refine ⟨?_, h1, h2⟩
  cases hF : List.find? (fun w => w.kod == id) rows with
  | none => rw [h1 hF]; rfl
  | some w =>
    obtain ⟨v, _, hfilter⟩ := h2 w hF
    rw [hfilter]
    rfl

/-- Witness for C5 on a two-id catalog with one matching feed row. -/
theorem create_stocks_exactly_once_witness :
    create_stocks [Row.mk "a" ">10" "x"] ["a", "b"] =
      some ([⟨"a", 100⟩, ⟨"b", 0⟩], ["b"]) ∧
    (List.filter (fun r => r.offer_id == "a")
        [(⟨"a", 100⟩ : StockRec), ⟨"b", 0⟩]).length = 1 := by
  refine ⟨rfl, ?_⟩
  exact ((create_stocks_exactly_once [Row.mk "a" ">10" "x"] ["a", "b"]
    [⟨"a", 100⟩, ⟨"b", 0⟩] ["b"] (by decide) rfl) "a" (by decide)).1

/-- C4: in create_stocks, a feed row that matches a remaining offer_id
contributes stock 100 for quantity ">10", stock 0 for quantity "1", and
its int() parse for any other quantity. -/
theorem create_stocks_quantity (rows : List Row) (ids : List String)
    (stocks : List StockRec) (rem : List String) (hN : ids.Nodup)
    (h : create_stocks rows ids = some (stocks, rem))
    (id : String) (hid : id ∈ ids) (w : Row)
    (hw : List.find? (fun w2 => w2.kod == id) rows = some w) :
    (w.kolichestvo = ">10" → (⟨id, 100⟩ : StockRec) ∈ stocks) ∧
    (w.kolichestvo = "1" → (⟨id, 0⟩ : StockRec) ∈ stocks) ∧
    (w.kolichestvo ≠ ">10" → w.kolichestvo ≠ "1" →
      ∃ v, pyInt? w.kolichestvo = some v ∧ (⟨id, v⟩ : StockRec) ∈ stocks) := by
  obtain ⟨v, hv, hfilter⟩ :=
    (create_stocks_filter_spec rows ids stocks rem hN h id hid).2 w hw
  have hmm : (⟨id, v⟩ : StockRec) ∈ stocks := by
    apply List.mem_of_mem_filter (p := fun r => r.offer_id == id)
    rw [hfilter]
    simp
  refine ⟨?_, ?_, ?_⟩
  · intro h10
    have hv100 : v = 100 := by
      rw [stockOf, if_pos h10] at hv
      exact (Option.some.inj hv).symm
    rw [← hv100]
    exact hmm
  · intro h1
    have hv0 : v = 0 := by
      rw [stockOf, if_neg (by simp [h1]), if_pos h1] at hv
      exact (Option.some.inj hv).symm
    rw [← hv0]
    exact hmm
  · intro hn10 hn1
    rw [stockOf, if_neg hn10, if_neg hn1] at hv
    exact ⟨v, hv, hmm⟩

/-- Witness for C4 at quantity ">10" on a one-row feed. -/
theorem create_stocks_quantity_witness :
    create_stocks [Row.mk "z" ">10" "x"] ["z"] = some ([⟨"z", 100⟩], []) ∧
    (⟨"z", 100⟩ : StockRec) ∈ [(⟨"z", 100⟩ : StockRec)] := by
  refine ⟨rfl, ?_⟩
  exact (create_stocks_quantity [Row.mk "z" ">10" "x"] ["z"] [⟨"z", 100⟩] []
    (by decide) rfl "z" (by decide) (Row.mk "z" ">10" "x") rfl).1 rfl

/-- C9: create_stocks consumes its offer_ids argument: the list the caller owns
afterwards holds, in order, exactly the catalog ids no feed row matched;
every matched id has been removed. -/
theorem create_stocks_mutates_offer_ids (rows : List Row) (ids : List String)
    (stocks : List StockRec) (rem : List String) (hN : ids.Nodup)
    (h : create_stocks rows ids = some (stocks, rem)) :
    rem = ids.filter (noMatch rows) ∧
    ∀ id ∈ ids, (id ∈ rem ↔ ∀ w ∈ rows, w.kod ≠ id) := by
  obtain ⟨recs, hl, _⟩ := create_stocks_destruct rows ids stocks rem h
  obtain ⟨hrem, -, -⟩ := stocksLoop_spec rows ids hN recs rem hl
  refine ⟨hrem, ?_⟩
  intro id hid
  rw [hrem]
  constructor
  · intro hmem2
    exact (noMatch_eq_true_iff rows id).mp (List.mem_filter.mp hmem2).2
  · intro hno
    exact List.mem_filter.mpr ⟨hid, (noMatch_eq_true_iff rows id).mpr hno⟩

/-- Witness for C9: the matched id "a" is gone afterwards, "b" survives. -/
theorem create_stocks_mutates_offer_ids_witness :
    create_stocks [Row.mk "a" "1" "x"] ["a", "b"] =
      some ([⟨"a", 0⟩, ⟨"b", 0⟩], ["b"]) ∧
    ["b"] = List.filter (noMatch [Row.mk "a" "1" "x"]) ["a", "b"] := by
  refine ⟨rfl, ?_⟩
  exact (create_stocks_mutates_offer_ids [Row.mk "a" "1" "x"] ["a", "b"]
    [⟨"a", 0⟩, ⟨"b", 0⟩] ["b"] (by decide) rfl).1

lemma create_prices_eq_nil (rows : List Row) (js : List String)
    (h : ∀ w ∈ rows, w.kod ∉ js) : create_prices rows js = [] := by
  induction rows with
  | nil => rfl
  | cons w ws ih =>
    rw [create_prices, if_neg (h w (List.mem_cons_self w ws))]
    exact ih (fun w2 hw2 => h w2 (List.mem_cons_of_mem w hw2))

/-- C2 fails on the code: main shares one offer_ids fetch between the two
transforms and create_stocks empties it of matched ids, so a feed row whose
code is in the catalog gets no price update. -/
theorem mainTransforms_counterexample :
    ¬ (∀ (rows : List Row) (ids : List String) (stocks : List StockRec)
        (prices : List PriceRec),
        mainTransforms rows ids = some (stocks, prices) →
        ∀ w ∈ rows, w.kod ∈ ids → ∃ p ∈ prices, p.offer_id = w.kod) := by
  intro hclaim
  have h := hclaim [Row.mk "123" "5" "5990"] ["123"] [⟨"123", 5⟩] []
    (by rfl) (Row.mk "123" "5" "5990") (by simp) (by simp)
  obtain ⟨p, hp, -⟩ := h
  simp at hp

/-- C2 amended: in main the catalog is fetched once and shared; after the
stock transform removes every matched id, the price transform runs against
the leftover ids only, so (for a duplicate-free catalog) the emitted price
list is empty. -/
theorem mainTransforms_shared_catalog (rows : List Row) (ids : List String)
    (stocks : List StockRec) (prices : List PriceRec) (hN : ids.Nodup)
    (h : mainTransforms rows ids = some (stocks, prices)) :
    prices = create_prices rows (ids.filter (noMatch rows)) ∧
    prices = [] := by
  unfold mainTransforms at h
  cases hcs : create_stocks rows ids with
  | none => rw [hcs] at h; exact absurd h (by simp)
  | some pr =>
    obtain ⟨stocks2, rem⟩ := pr
    rw [hcs] at h
    injection h with h
    injection h with h1 h2
    obtain ⟨recs, hl, -⟩ := create_stocks_destruct rows ids stocks2 rem hcs
    obtain ⟨hrem, -, -⟩ := stocksLoop_spec rows ids hN recs rem hl
    constructor
    · rw [← h2, hrem]
    · rw [← h2]
      apply create_prices_eq_nil
      intro w hw hmem2
      rw [hrem] at hmem2
      have hnm := (List.mem_filter.mp hmem2).2
      rw [noMatch_eq_true_iff] at hnm
      exact hnm w hw rfl

/-- Witness for the amended C2 on a one-row feed and one-id catalog. -/
theorem mainTransforms_shared_catalog_witness :
    mainTransforms [Row.mk "777" "1" "10"] ["777"] =
      some ([⟨"777", 0⟩], []) ∧
    ([] : List PriceRec) = [] := by
  refine ⟨rfl, ?_⟩
  exact (mainTransforms_shared_catalog [Row.mk "777" "1" "10"] ["777"]
    [⟨"777", 0⟩] [] (by decide) rfl).2

/-! The get_offer_ids pagination loop. -/

lemma fetchLoop_characterization (resp : Nat → Page) :
    ∀ fuel i, (∃ l, fetchLoop resp (accumUpto resp i) i fuel = some l) ↔
      (∃ k, i ≤ k ∧ k < i + fuel ∧ stopsAt resp k) := by
  intro fuel
  induction fuel with
  | zero =>
    intro i
    constructor
    · rintro ⟨l, hl⟩; rw [fetchLoop] at hl; exact absurd hl (by simp)
    · rintro ⟨k, h1, h2, -⟩; omega
  | succ fuel ih =>
    intro i
    have hacc : accumUpto resp i ++ (resp i).items = accumUpto resp (i + 1) :=
      rfl
    by_cases hstop : stopsAt resp i
    · constructor
      · intro _
        exact ⟨i, Nat.le_refl i, by omega, hstop⟩
      · intro _
        refine ⟨accumUpto resp (i + 1), ?_⟩
        rw [fetchLoop]
        simp only [hacc]
        exact if_pos
          (show (resp i).total = (accumUpto resp (i + 1)).length from hstop)
    · have hne : fetchLoop resp (accumUpto resp i) i (fuel + 1) =
          fetchLoop resp (accumUpto resp (i + 1)) (i + 1) fuel := by
        rw [fetchLoop]
        simp only [hacc]
        exact if_neg
          (show ¬ (resp i).total = (accumUpto resp (i + 1)).length from hstop)
      rw [hne, ih (i + 1)]
      constructor
      · rintro ⟨k, h1, h2, h3⟩
        exact ⟨k, by omega, by omega, h3⟩
      · rintro ⟨k, h1, h2, h3⟩
        have hki : k ≠ i := fun he => hstop (he ▸ h3)
        exact ⟨k, by omega, by omega, h3⟩

lemma get_offer_ids_run_term (resp : Nat → Page) (fuel : Nat) :
    (∃ l, get_offer_ids_run resp fuel = some l) ↔
      ∃ k, k < fuel ∧ stopsAt resp k := by
  have h := fetchLoop_characterization resp fuel 0
  simp only [accumUpto, Nat.zero_add] at h
  rw [get_offer_ids_run]
  constructor
  · intro hex
    obtain ⟨k, -, h2, h3⟩ := h.mp hex
    exact ⟨k, by omega, h3⟩
  · rintro ⟨k, h1, h3⟩
    exact h.mpr ⟨k, Nat.zero_le k, by omega, h3⟩

lemma get_offer_ids_run_none (resp : Nat → Page)
    (hno : ∀ k, ¬ stopsAt resp k) (fuel : Nat) :
    get_offer_ids_run resp fuel = none := by
  cases hr : get_offer_ids_run resp fuel with
  | none => rfl
  | some l =>
    obtain ⟨k, -, hk⟩ := (get_offer_ids_run_term resp fuel).mp ⟨l, hr⟩
    exact absurd hk (hno k)

lemma accumUpto_const_length (p : Page) :
    ∀ k, (accumUpto (fun _ => p) k).length = k * p.items.length := by
  intro k
  induction k with
  | zero => simp [accumUpto]
  | succ k ih =>
    rw [accumUpto, List.length_append, ih, Nat.succ_mul]

/-- C7: the get_offer_ids pagination loop terminates exactly when the
accumulated item count equals the total reported by a response, and this is the
only termination condition: against a response sequence on which the counts
never agree (e.g. a non-advancing cursor returning the same 2-item page with
total 5), the loop never terminates, whatever the fuel. -/
theorem get_offer_ids_termination (resp : Nat → Page) :
    ((∃ fuel l, get_offer_ids_run resp fuel = some l) ↔
      (∃ k, stopsAt resp k)) ∧
    ((∀ k, ¬ stopsAt resp k) → ∀ fuel, get_offer_ids_run resp fuel = none) ∧
    (∀ fuel,
      get_offer_ids_run (fun _ => Page.mk ["w1", "w2"] 5 "same") fuel = none) := by
  refine ⟨?_, ?_, ?_⟩
  · constructor
    · rintro ⟨fuel, hex⟩
      obtain ⟨k, -, hk⟩ := (get_offer_ids_run_term resp fuel).mp hex
      exact ⟨k, hk⟩
    · rintro ⟨k, hk⟩
      obtain ⟨l, hl⟩ :=
        (get_offer_ids_run_term resp (k + 1)).mpr ⟨k, by omega, hk⟩
      exact ⟨k + 1, l, hl⟩
  · intro hno fuel
    exact get_offer_ids_run_none resp hno fuel
  · intro fuel
    apply get_offer_ids_run_none
    intro k hk
    rw [stopsAt, accumUpto_const_length] at hk
    simp at hk
    omega

/-- Witness for C7: three iterations against the non-advancing 2-item page
with total 5 produce no break. -/
theorem get_offer_ids_termination_witness :
    get_offer_ids_run (fun _ => Page.mk ["w1", "w2"] 5 "same") 3 = none :=
  (get_offer_ids_termination (fun _ => Page.mk ["w1", "w2"] 5 "same")).2.2 3

end Seller
